import Mathlib

/-!
Verification development for the opencode-personal-knowledge repository.

The relational store (src/database/index.ts, SQLite) is modelled as explicit
lists of rows; timestamps (ISO-8601 strings in the source, which compare
lexicographically exactly as they compare chronologically) are modelled as
naturals.  The embedding model and the ANN engine (LanceDB) are external
collaborators: the ranked output of a vector search is passed in as an
explicit list, and success of the embedding pipeline is an explicit boolean
parameter (`embedOk`); a `false` value plays the role of the exception that
the services catch.  JavaScript truthiness (`x || null`, `if (!x)`) and the
nullish operator (`??`) are modelled faithfully, as is SQLite's `LIKE`
(ASCII-case-insensitive, `%`/`_` wildcards) applied to the JSON-serialized
`tags` column.
-/

namespace PK

/-- ASCII lower-casing, as performed by SQLite `LOWER` and by `LIKE`'s
case folding (both fold ASCII letters only). -/
def lchar (c : Char) : Char :=
  if 65 ≤ c.toNat ∧ c.toNat ≤ 90 then Char.ofNat (c.toNat + 32) else c

/-- Character comparison used by SQLite `LIKE` (ASCII-case-insensitive). -/
def lowerEq (a b : Char) : Bool := lchar a = lchar b

/-- ASCII lower-casing of a character list. -/
def lstr (s : List Char) : List Char := s.map lchar

/-- SQLite `LIKE` pattern matching: `%` matches any (possibly empty)
sequence, `_` matches exactly one character, any other pattern character
matches ASCII-case-insensitively. -/
def likeMatch : List Char → List Char → Bool
  | [], s => s.isEmpty
  | p :: ps, s =>
    if p = '%' then s.tails.any (fun t => likeMatch ps t)
    else
      match s with
      | [] => false
      | c :: s' =>
        if p = '_' then likeMatch ps s' else lowerEq p c && likeMatch ps s'

/-- Splitting on runs of whitespace, as JavaScript `split(/\s+/)` does:
a leading or trailing whitespace run produces an empty field. -/
def splitWs : List Char → List (List Char)
  | [] => [[]]
  | c :: cs =>
    let r := splitWs cs
    if c.isWhitespace then
      match cs with
      | [] => [] :: r
      | d :: _ => if d.isWhitespace then r else [] :: r
    else
      match r with
      | [] => [[c]]
      | h :: t => (c :: h) :: t

/-- JSON escaping of one character inside a string literal (quote and
backslash; control-character escapes are not modelled, no tag in any
claim contains one). -/
def escJson (c : Char) : List Char :=
  if c = '"' ∨ c = '\\' then ['\\', c] else [c]

/-- One tag rendered as a JSON string literal. -/
def quoteTag (t : String) : List Char :=
  '"' :: t.data.flatMap escJson ++ ['"']

/-- The comma-separated inside of `JSON.stringify` of a string array. -/
def serializeInner : List String → List Char
  | [] => []
  | [t] => quoteTag t
  | t :: ts => quoteTag t ++ ',' :: serializeInner ts

/-- `JSON.stringify` of a string array, as stored in the `tags` column. -/
def serializeTags (tl : List String) : List Char :=
  '[' :: serializeInner tl ++ [']']

/-- The `LIKE` pattern `%"t"%` built by `listKnowledgeEntries`. -/
def tagPat (t : String) : List Char :=
  '%' :: '"' :: t.data ++ ['"', '%']

/-- The `LIKE` pattern `%w%` built by `searchKnowledgeByText`. -/
def wordPat (w : List Char) : List Char :=
  '%' :: w ++ ['%']

/-- The search words kept by `searchKnowledgeByText`: lower-cased query,
split on whitespace, words of length > 2 only. -/
def keptWords (q : String) : List (List Char) :=
  (splitWs (lstr q.data)).filter (fun w => 2 < w.length)

/-- Splitting a character list at every `"` (used to analyse which
substrings of a serialized tag array are quote-delimited). -/
def splitQ : List Char → List (List Char)
  | [] => [[]]
  | c :: cs =>
    match splitQ cs with
    | [] => [[]]
    | h :: t => if c = '"' then [] :: h :: t else (c :: h) :: t

/-- A character that cannot interfere with the JSON/`LIKE` encoding:
lower-case ASCII letter, digit, or hyphen. -/
def plainChar (c : Char) : Bool :=
  (97 ≤ c.toNat && c.toNat ≤ 122) || (48 ≤ c.toNat && c.toNat ≤ 57) ||
    c = '-'

/-- A tag (or requested tag) that is a nonempty string of plain
characters. -/
def plainTag (t : String) : Bool :=
  !t.data.isEmpty && t.data.all plainChar

/-- A word free of the `LIKE` wildcards. -/
def noWildcard (w : List Char) : Bool :=
  w.all (fun c => c ≠ '%' && c ≠ '_')

/-- Maximum of a list of timestamps (`MAX(created_at)` of a group),
`none` when the group is empty. -/
def maxTime : List Nat → Option Nat
  | [] => none
  | t :: ts => some (ts.foldl Nat.max t)

/-- Insertion into a descending-by-key sorted list. -/
def insertDesc (key : α → Nat) (x : α) : List α → List α
  | [] => [x]
  | y :: ys => if key y < key x then x :: y :: ys else y :: insertDesc key x ys

/-- `ORDER BY key DESC`. -/
def sortDesc (key : α → Nat) : List α → List α
  | [] => []
  | x :: xs => insertDesc key x (sortDesc key xs)

/-! ## Row types (src/database/index.ts) -/

/-- A row of `knowledge_entries`.  The `tags` column stores the JSON text
`serializeTags l`; the model keeps the list `l` and serializes where SQL
inspects the raw column text. -/
structure KRow where
  id : Nat
  title : String
  content : String
  source : Option String
  tags : Option (List String)
  created_at : Nat
  updated_at : Nat
deriving DecidableEq, Repr

/-- The `KnowledgeEntry` API shape returned by the read functions. -/
structure KEntry where
  id : Nat
  title : String
  content : String
  source : Option String
  tags : Option (List String)
  created_at : Nat
  updated_at : Nat
deriving DecidableEq, Repr

/-- A row of `sessions`. -/
structure SessionRow where
  id : Nat
  name : Option String
  started_at : Nat
  ended_at : Option Nat
  summary : Option String
  is_active : Bool
deriving DecidableEq, Repr

/-- A row of `session_messages`. -/
structure MessageRow where
  id : Nat
  session_id : Nat
  role : String
  content : String
  created_at : Nat
deriving DecidableEq, Repr

/-- The relational store. -/
structure Db where
  entries : List KRow
  nextEntryId : Nat
  sessions : List SessionRow
  nextSessionId : Nat
  messages : List MessageRow
  nextMessageId : Nat
deriving DecidableEq, Repr

/-- The empty database, as created by `initDatabase`. -/
def dbInit : Db := ⟨[], 1, [], 1, [], 1⟩

/-- The partial update accepted by `updateKnowledgeEntry`. -/
structure KUpdates where
  title : Option String := none
  content : Option String := none
  source : Option String := none
  tags : Option (List String) := none
deriving DecidableEq, Repr

namespace DB

/-- `SESSION_TIMEOUT_MS` (1 hour). -/
def SESSION_TIMEOUT_MS : Nat := 60 * 60 * 1000

/-- src/database/index.ts `saveKnowledgeEntry`: `entry.source || null`
turns an empty source into NULL; `entry.tags` is serialized when present. -/
def saveKnowledgeEntry (db : Db) (title content : String)
    (source : Option String) (tags : Option (List String)) (now : Nat) :
    Db × Nat :=
  let sourceCol : Option String :=
    match source with
    | some s => if s = "" then none else some s
    | none => none
  let row : KRow := ⟨db.nextEntryId, title, content, sourceCol, tags, now, now⟩
  ({ db with entries := db.entries ++ [row], nextEntryId := db.nextEntryId + 1 },
   db.nextEntryId)

/-- Projection of a row to the API entry: `record.source || undefined`
turns an empty stored source into `none`. -/
def rowToEntry (r : KRow) : KEntry :=
  let src : Option String :=
    match r.source with
    | some s => if s = "" then none else some s
    | none => none
  ⟨r.id, r.title, r.content, src, r.tags, r.created_at, r.updated_at⟩

/-- src/database/index.ts `getKnowledgeEntry` (`SELECT ... WHERE id = ?`,
first row). -/
def getKnowledgeEntry (db : Db) (id : Nat) : Option KEntry :=
  (db.entries.find? (fun r => r.id = id)).map rowToEntry

/-- src/database/index.ts `updateKnowledgeEntry`: merge with `??`
(nullish, not truthy) for title/content/source, truthiness for tags. -/
def updateKnowledgeEntry (db : Db) (id : Nat) (u : KUpdates) (now : Nat) :
    Db × Bool :=
  match getKnowledgeEntry db id with
  | none => (db, false)
  | some ex =>
    let newTitle := u.title.getD ex.title
    let newContent := u.content.getD ex.content
    let newSource : Option String :=
      match u.source with
      | some s => some s
      | none => ex.source
    let newTags : Option (List String) :=
      match u.tags with
      | some l => some l
      | none => ex.tags
    ({ db with entries := db.entries.map (fun r =>
        if r.id = id then
          { r with title := newTitle, content := newContent,
                   source := newSource, tags := newTags, updated_at := now }
        else r) },
     true)

/-- src/database/index.ts `deleteKnowledgeEntry`. -/
def deleteKnowledgeEntry (db : Db) (id : Nat) : Db × Bool :=
  (({ db with entries := db.entries.filter (fun r => r.id ≠ id) }),
   db.entries.any (fun r => r.id = id))

/-- src/database/index.ts `listKnowledgeEntries`: optional
`tags LIKE '%"t"%' OR ...` filter over the serialized column, then
`ORDER BY created_at DESC LIMIT ? OFFSET ?`. -/
def listKnowledgeEntries (db : Db) (limit offset : Nat)
    (tags : Option (List String)) : List KEntry :=
  let base :=
    match tags with
    | some (t :: ts) =>
      db.entries.filter (fun r =>
        (t :: ts).any (fun tg =>
          match r.tags with
          | some tl => likeMatch (tagPat tg) (serializeTags tl)
          | none => false))
    | _ => db.entries
  (((sortDesc (fun r => r.created_at) base).drop offset).take limit).map rowToEntry

/-- src/database/index.ts `searchKnowledgeByText`: lower-case the query,
split on whitespace, keep words of length > 2; empty word list short-circuits
to `[]`; otherwise OR of `LOWER(title) LIKE '%w%' OR LOWER(content) LIKE '%w%'`,
`ORDER BY updated_at DESC LIMIT ?`. -/
def searchKnowledgeByText (db : Db) (q : String) (limit : Nat) : List KEntry :=
  let words := keptWords q
  if words.isEmpty then []
  else
    let matchesRow := fun (r : KRow) =>
      words.any (fun w =>
        likeMatch (wordPat w) (lstr r.title.data) ||
        likeMatch (wordPat w) (lstr r.content.data))
    ((sortDesc (fun r => r.updated_at) (db.entries.filter matchesRow)).take limit).map
      rowToEntry

/-- src/database/index.ts `createSession`: `name || null`, `is_active = 1`,
`ended_at`/`summary` left NULL. -/
def createSession (db : Db) (name : Option String) (now : Nat) : Db × Nat :=
  let nameCol : Option String :=
    match name with
    | some n => if n = "" then none else some n
    | none => none
  let row : SessionRow := ⟨db.nextSessionId, nameCol, now, none, none, true⟩
  ({ db with sessions := db.sessions ++ [row],
             nextSessionId := db.nextSessionId + 1 },
   db.nextSessionId)

/-- src/database/index.ts `getSession`. -/
def getSession (db : Db) (id : Nat) : Option SessionRow :=
  db.sessions.find? (fun r => r.id = id)

/-- Accumulator for `ORDER BY id DESC LIMIT 1`: the row with the largest id. -/
def pickMaxId : Option SessionRow → List SessionRow → Option SessionRow
  | acc, [] => acc
  | acc, s :: ss =>
    pickMaxId
      (match acc with
       | none => some s
       | some m => if m.id < s.id then some s else some m) ss

/-- src/database/index.ts `getActiveSession`:
`WHERE is_active = 1 ORDER BY id DESC LIMIT 1`. -/
def getActiveSession (db : Db) : Option SessionRow :=
  pickMaxId none (db.sessions.filter (fun s => s.is_active))

/-- src/database/index.ts `endSession`: unconditional UPDATE of every row
with the id; `summary || null` turns an empty summary into NULL; returns
`changes > 0`. -/
def endSession (db : Db) (id : Nat) (summary : Option String) (now : Nat) :
    Db × Bool :=
  let summaryCol : Option String :=
    match summary with
    | some s => if s = "" then none else some s
    | none => none
  ({ db with sessions := db.sessions.map (fun r =>
      if r.id = id then
        { r with ended_at := some now, summary := summaryCol, is_active := false }
      else r) },
   db.sessions.any (fun r => r.id = id))

/-- src/database/index.ts `saveSessionMessage`. -/
def saveSessionMessage (db : Db) (sid : Nat) (role content : String)
    (now : Nat) : Db × Nat :=
  let row : MessageRow := ⟨db.nextMessageId, sid, role, content, now⟩
  ({ db with messages := db.messages ++ [row],
             nextMessageId := db.nextMessageId + 1 },
   db.nextMessageId)

/-- src/database/index.ts `getSessionMessageCount`. -/
def getSessionMessageCount (db : Db) (sid : Nat) : Nat :=
  (db.messages.filter (fun m => m.session_id = sid)).length

/-- `MAX(created_at)` over a session's messages (`none` when it has none). -/
def lastMsgTime (db : Db) (sid : Nat) : Option Nat :=
  maxTime ((db.messages.filter (fun m => m.session_id = sid)).map
    (fun m => m.created_at))

/-- The SQL condition of `closeTimedOutSessions`:
`is_active = 1 AND (last_msg IS NULL OR last_msg < cutoff) AND started_at < cutoff`. -/
def timedOutCond (db : Db) (cutoff : Nat) (s : SessionRow) : Bool :=
  s.is_active &&
  (match lastMsgTime db s.id with
   | none => true
   | some m => decide (m < cutoff)) &&
  decide (s.started_at < cutoff)

/-- src/database/index.ts `closeTimedOutSessions`: flips the matching rows
to inactive with `ended_at = CURRENT_TIMESTAMP` and the fixed marker
summary, and returns `changes`. -/
def closeTimedOutSessions (db : Db) (now : Nat) : Db × Nat :=
  let cutoff := now - SESSION_TIMEOUT_MS
  ({ db with sessions := db.sessions.map (fun s =>
      if timedOutCond db cutoff s then
        { s with is_active := false, ended_at := some now,
                 summary := some "Auto-closed due to inactivity" }
      else s) },
   (db.sessions.filter (timedOutCond db cutoff)).length)

end DB

/-! ## Vector index adapter (src/services/vectorService.ts)

The embedding vector itself is opaque (produced by the external model); a
vector record keeps the denormalized projection.  The table is `none` until
first created. -/

/-- A record of the `knowledge_vectors` table (embedding omitted: it is the
external model's output and never inspected by the code under scrutiny). -/
structure VRow where
  id : Nat
  title : String
  content_preview : String
  tags : Option (List String)
deriving DecidableEq, Repr

/-- A search result as returned by `queryVectors`. -/
structure SearchResult where
  id : Nat
  title : String
  content_preview : String
  tags : List String
  score : ℚ
deriving DecidableEq, Repr

/-- Process state shared by the services: the relational store, the vector
table (`none` until first created) and the in-memory current-session id. -/
structure SvcState where
  db : Db
  vectors : Option (List VRow)
  currentSessionId : Option Nat
deriving DecidableEq, Repr

/-- The fresh process state. -/
def svcInit : SvcState := ⟨dbInit, none, none⟩

namespace Svc

/-- src/services/vectorService.ts `deleteVector`: no table means no-op. -/
def deleteVector (v : Option (List VRow)) (id : Nat) : Option (List VRow) :=
  match v with
  | none => none
  | some l => some (l.filter (fun r => r.id ≠ id))

/-- src/services/vectorService.ts `updateVector`: a falsy `entry.id` returns
early; otherwise delete-then-insert.  The returned boolean is "completed
without throwing" (callers only distinguish exception vs normal return):
`embedOk = false` stands for the embedding pipeline throwing, which happens
after the deletion but before the insert. -/
def updateVector (v : Option (List VRow)) (id : Nat) (title content : String)
    (tags : Option (List String)) (embedOk : Bool) :
    Option (List VRow) × Bool :=
  if id = 0 then (v, true)
  else
    let v1 := deleteVector v id
    if embedOk then
      let r : VRow := ⟨id, title, content.take 500, tags⟩
      match v1 with
      | some l => (some (l ++ [r]), true)
      | none => (some [r], true)
    else (v1, false)

/-- Conversion of a raw engine record (with its distance) to a
`SearchResult`: `score = 1 - distance`, `tags` parsed with `[]` default. -/
def toSearchResult (p : VRow × ℚ) : SearchResult :=
  { id := p.1.id, title := p.1.title, content_preview := p.1.content_preview,
    tags := p.1.tags.getD [], score := 1 - p.2 }

/-- src/services/vectorService.ts `queryVectors`: errors when the table was
never created; otherwise takes `limit` rows off the engine's ranked answer
(`ranked`, the external ANN engine's ordering for the query embedding,
paired with distances), converts distance to `score = 1 - distance` and
keeps scores `>= minScore`. -/
def queryVectors (st : SvcState) (ranked : List (VRow × ℚ)) (limit : Nat)
    (minScore : ℚ) : Except String (List SearchResult) :=
  match st.vectors with
  | none => .error "Vector database not ready"
  | some _ =>
    .ok (((ranked.take limit).map toSearchResult).filter
      (fun r => decide (minScore ≤ r.score)))

/-! ## Knowledge service (src/services/knowledgeService.ts) -/

/-- Result of `addKnowledge`. -/
structure AddResult where
  id : Nat
  vectorized : Bool
deriving DecidableEq, Repr

/-- Result of `updateKnowledge`. -/
structure UpdResult where
  success : Bool
  vectorized : Bool
deriving DecidableEq, Repr

/-- knowledgeService.ts `addKnowledge`: relational write first, then
best-effort vector indexing (`vectorized = false` exactly when the vector
path threw). -/
def addKnowledge (st : SvcState) (title content : String)
    (source : Option String) (tags : Option (List String)) (embedOk : Bool)
    (now : Nat) : SvcState × AddResult :=
  let p := DB.saveKnowledgeEntry st.db title content source tags now
  match DB.getKnowledgeEntry p.1 p.2 with
  | some e =>
    let q := updateVector st.vectors e.id e.title e.content e.tags embedOk
    (⟨p.1, q.1, st.currentSessionId⟩, ⟨p.2, q.2⟩)
  | none => ({ st with db := p.1 }, ⟨p.2, false⟩)

/-- knowledgeService.ts `updateKnowledge`: `{success:false, vectorized:false}`
without side effects on an unknown id; otherwise re-read and re-index. -/
def updateKnowledge (st : SvcState) (id : Nat) (u : KUpdates)
    (embedOk : Bool) (now : Nat) : SvcState × UpdResult :=
  let p := DB.updateKnowledgeEntry st.db id u now
  if p.2 then
    match DB.getKnowledgeEntry p.1 id with
    | some e =>
      let q := updateVector st.vectors e.id e.title e.content e.tags embedOk
      (⟨p.1, q.1, st.currentSessionId⟩, ⟨true, q.2⟩)
    | none => ({ st with db := p.1 }, ⟨true, false⟩)
  else ({ st with db := p.1 }, ⟨false, false⟩)

/-- knowledgeService.ts `getKnowledge`. -/
def getKnowledge (st : SvcState) (id : Nat) : Option KEntry :=
  DB.getKnowledgeEntry st.db id

/-- knowledgeService.ts `listKnowledge`. -/
def listKnowledge (st : SvcState) (limit offset : Nat)
    (tags : Option (List String)) : List KEntry :=
  DB.listKnowledgeEntries st.db limit offset tags

/-- knowledgeService.ts `searchKnowledgeText`. -/
def searchKnowledgeText (st : SvcState) (q : String) (limit : Nat) :
    List KEntry :=
  DB.searchKnowledgeByText st.db q limit

/-! ## Session service (src/services/sessionService.ts) -/

/-- The marker written when a new session auto-closes the previous one. -/
def autoCloseMarker : String := "Auto-closed when new session started"

/-- sessionService.ts `startLoggingSession`: auto-end the persisted active
session (if any) with the fixed marker, create a new session, make it the
in-memory current session. -/
def startLoggingSession (st : SvcState) (name : Option String) (now : Nat) :
    SvcState × Nat :=
  let db1 :=
    match DB.getActiveSession st.db with
    | some a => (DB.endSession st.db a.id (some autoCloseMarker) now).1
    | none => st.db
  let p := DB.createSession db1 name now
  ({ st with db := p.1, currentSessionId := some p.2 }, p.2)

/-- The distinguishable errors thrown by `logMessage`. -/
inductive LogErr where
  | noSession : LogErr
  | notFound : Nat → LogErr
  | closed : Nat → LogErr
deriving DecidableEq, Repr

/-- sessionService.ts `logMessage`: resolve the target with `??` then the
falsy guard, check existence and activity, append the row, then best-effort
vector indexing tagged `session:<id>` and `role:<role>`. -/
def logMessage (st : SvcState) (role content : String) (sid? : Option Nat)
    (embedOk : Bool) (now : Nat) : SvcState × Except LogErr Nat :=
  let target := sid?.orElse (fun _ => st.currentSessionId)
  match target with
  | none => (st, .error .noSession)
  | some tid =>
    if tid = 0 then (st, .error .noSession)
    else
      match DB.getSession st.db tid with
      | none => (st, .error (.notFound tid))
      | some s =>
        if s.is_active then
          let p := DB.saveSessionMessage st.db tid role content now
          let q := updateVector st.vectors p.2
            ("[" ++ role ++ "] Session " ++ toString tid) content
            (some ["session:" ++ toString tid, "role:" ++ role]) embedOk
          (⟨p.1, q.1, st.currentSessionId⟩, .ok p.2)
        else (st, .error (.closed tid))

/-- sessionService.ts `searchSession`: semantic query over the whole index
asking for `limit * 2` candidates at `minScore 0.3`, client-side filter by
the `session:<id>` tag, truncate to `limit`. -/
def searchSession (st : SvcState) (ranked : List (VRow × ℚ)) (sessionId : Nat)
    (q : String) (limit : Nat) : Except String (List SearchResult) :=
  match queryVectors st ranked (limit * 2) (3 / 10) with
  | .error e => .error e
  | .ok results =>
    let sessionTag := "session:" ++ toString sessionId
    .ok ((results.filter (fun r => r.tags.contains sessionTag)).take limit)

/-- sessionService.ts `searchAllSessions`: same over-fetch, keep results
having any tag starting with `session:`, truncate. -/
def searchAllSessions (st : SvcState) (ranked : List (VRow × ℚ)) (q : String)
    (limit : Nat) : Except String (List SearchResult) :=
  match queryVectors st ranked (limit * 2) (3 / 10) with
  | .error e => .error e
  | .ok results =>
    .ok ((results.filter (fun r =>
        r.tags.any (fun t => t.startsWith ("session:")))).take limit)

/-- Result of the service-level `endSession`. -/
structure EndResult where
  success : Bool
  messageCount : Nat
deriving DecidableEq, Repr

/-- sessionService.ts `endSession`: resolve like `logMessage`, but a missing
target returns `{success:false}` instead of throwing; clears the current
pointer only when the ended session was the current one. -/
def endSession (st : SvcState) (sid? : Option Nat) (summary : Option String)
    (now : Nat) : SvcState × EndResult :=
  let target := sid?.orElse (fun _ => st.currentSessionId)
  match target with
  | none => (st, ⟨false, 0⟩)
  | some tid =>
    if tid = 0 then (st, ⟨false, 0⟩)
    else
      let mc := DB.getSessionMessageCount st.db tid
      let p := DB.endSession st.db tid summary now
      let cur' :=
        if p.2 && (st.currentSessionId == some tid) then none
        else st.currentSessionId
      ({ st with db := p.1, currentSessionId := cur' }, ⟨p.2, mc⟩)

/-- sessionService.ts `closeTimedOutSessions`: sweep, then clear the
current pointer when it is set (truthy) and no active session remains. -/
def closeTimedOutSessions (st : SvcState) (now : Nat) : SvcState × Nat :=
  let p := DB.closeTimedOutSessions st.db now
  let cur' :=
    match st.currentSessionId with
    | some c =>
      if c ≠ 0 ∧ (DB.getActiveSession p.1).isNone then none
      else some c
    | none => none
  ({ st with db := p.1, currentSessionId := cur' }, p.2)

end Svc

/-! ## Reachability -/

/-- One database-level session operation (the operations named by the
`is_active == (ended_at == null)` invariant claim). -/
inductive DbOp where
  | create (name : Option String) (now : Nat)
  | endS (id : Nat) (summary : Option String) (now : Nat)
  | saveMsg (sid : Nat) (role content : String) (now : Nat)
  | sweep (now : Nat)

/-- Apply a database-level operation. -/
def applyDbOp (db : Db) : DbOp → Db
  | .create name now => (DB.createSession db name now).1
  | .endS id summary now => (DB.endSession db id summary now).1
  | .saveMsg sid role content now => (DB.saveSessionMessage db sid role content now).1
  | .sweep now => (DB.closeTimedOutSessions db now).1

/-- Databases reachable from the fresh store through the session
operations. -/
inductive DbReach : Db → Prop where
  | init : DbReach dbInit
  | step {db : Db} (op : DbOp) : DbReach db → DbReach (applyDbOp db op)

/-- One service-level session operation. -/
inductive SvcOp where
  | start (name : Option String) (now : Nat)
  | log (role content : String) (sid? : Option Nat) (embedOk : Bool) (now : Nat)
  | endS (sid? : Option Nat) (summary : Option String) (now : Nat)
  | sweep (now : Nat)

/-- Apply a service-level operation. -/
def applySvcOp (st : SvcState) : SvcOp → SvcState
  | .start name now => (Svc.startLoggingSession st name now).1
  | .log role content sid? embedOk now =>
    (Svc.logMessage st role content sid? embedOk now).1
  | .endS sid? summary now => (Svc.endSession st sid? summary now).1
  | .sweep now => (Svc.closeTimedOutSessions st now).1

/-- Process states reachable from a fresh process through the session
service. -/
inductive SvcReach : SvcState → Prop where
  | init : SvcReach svcInit
  | step {st : SvcState} (op : SvcOp) : SvcReach st → SvcReach (applySvcOp st op)

/-- Number of active session rows. -/
def countActive (db : Db) : Nat :=
  db.sessions.countP (fun s => s.is_active)

/-! ## Spec-side formulations (used to state the claims) -/

/-- The claims' notion of a session's last activity: the most recent
message's timestamp, or the start time when it has no messages. -/
def lastActivity (db : Db) (s : SessionRow) : Nat :=
  (DB.lastMsgTime db s.id).getD s.started_at

/-- The claims' formulation of the timeout condition: last activity and
start time both older than the cutoff, for an active session. -/
def claimTimedOut (db : Db) (cutoff : Nat) (s : SessionRow) : Bool :=
  s.is_active && decide (lastActivity db s < cutoff) &&
    decide (s.started_at < cutoff)

/-- The closed form of a session row after the timeout sweep. -/
def sweepClosed (now : Nat) (s : SessionRow) : SessionRow :=
  { s with is_active := false, ended_at := some now,
           summary := some "Auto-closed due to inactivity" }

/-- The claims' substring semantics for one search word against one row:
the (already lower-cased) word occurs in the lower-cased title or the
lower-cased content. -/
def specWordMatch (w : List Char) (r : KRow) : Bool :=
  decide (w <:+: lstr r.title.data) || decide (w <:+: lstr r.content.data)

/-! ## Concrete states used by witnesses and counterexamples -/

/-- A process state holding one active session (id 1) which is also the
in-memory current session. -/
def exActive : SvcState :=
  ⟨⟨[], 1, [⟨1, some "S", 0, none, none, true⟩], 2, [], 1⟩, none, some 1⟩

/-- A process state holding one already-ended session (id 1) with a
recorded summary, and no current session. -/
def exEnded : SvcState :=
  ⟨⟨[], 1, [⟨1, some "S", 0, some 2, some "orig", false⟩], 2, [], 1⟩,
   none, none⟩

/-- A database holding one stale active session (started at time 0 with no
messages) and one fresh one. -/
def exStale : Db :=
  ⟨[], 1,
   [⟨1, some "old", 0, none, none, true⟩,
    ⟨2, some "new", 7000000, none, none, true⟩], 3, [], 1⟩

/-- A process state whose vector table exists (empty is enough: ranked
answers are supplied by the external engine). -/
def exVec : SvcState := ⟨dbInit, some [], none⟩

/-- A one-element ranked answer tagged for session 1, at distance 0. -/
def exRanked : List (VRow × ℚ) :=
  [(⟨1, "t", "c", some ["session:1", "role:user"]⟩, 0)]

/-- The reachable process state after one `startLoggingSession("S1")`. -/
def exStart1 : SvcState := applySvcOp svcInit (.start (some "S1") 1)

/-! # Lemmas -/

theorem mem_insertDesc {key : α → Nat} {x a : α} {l : List α} :
    a ∈ insertDesc key x l ↔ a = x ∨ a ∈ l := by
  induction l with
  | nil => simp [insertDesc]
  | cons y ys ih =>
    by_cases h : key y < key x <;> simp [insertDesc, h, ih] <;> tauto

theorem mem_sortDesc {key : α → Nat} {a : α} {l : List α} :
    a ∈ sortDesc key l ↔ a ∈ l := by
  induction l with
  | nil => simp [sortDesc]
  | cons y ys ih => simp [sortDesc, mem_insertDesc, ih]

theorem pickMaxId_mem {acc : Option SessionRow} {l : List SessionRow}
    {a : SessionRow} (h : DB.pickMaxId acc l = some a) :
    (∃ b, acc = some b ∧ a = b) ∨ a ∈ l := by
  induction l generalizing acc with
  | nil => simp [DB.pickMaxId] at h; exact Or.inl ⟨a, h, rfl⟩
  | cons s ss ih =>
    simp only [DB.pickMaxId] at h
    rcases ih h with ⟨b, hb, hab⟩ | hmem
    · cases acc with
      | none => simp at hb; simp [hab, hb]
      | some m =>
        by_cases hlt : m.id < s.id
        · simp [hlt] at hb; simp [hab, hb]
        · simp [hlt] at hb; simp [hab, hb]
    · simp [hmem]

theorem pickMaxId_none {acc : Option SessionRow} {l : List SessionRow}
    (h : DB.pickMaxId acc l = none) : acc = none ∧ l = [] := by
  induction l generalizing acc with
  | nil => simp [DB.pickMaxId] at h; simp [h]
  | cons s ss ih =>
    simp only [DB.pickMaxId] at h
    rcases ih h with ⟨hacc, -⟩
    cases acc with
    | none => simp at hacc
    | some m =>
      by_cases hlt : m.id < s.id <;> simp [hlt] at hacc

/-- `getActiveSession` returns an active member of the table. -/
theorem getActiveSession_some {db : Db} {a : SessionRow}
    (h : DB.getActiveSession db = some a) :
    a ∈ db.sessions ∧ a.is_active = true := by
  rcases pickMaxId_mem h with ⟨b, hb, -⟩ | hmem
  · cases hb
  · exact ⟨(List.mem_filter.mp hmem).1, by
      simpa using (List.mem_filter.mp hmem).2⟩

/-- `getActiveSession` is `none` exactly when no session is active. -/
theorem getActiveSession_none {db : Db}
    (h : DB.getActiveSession db = none) :
    ∀ s ∈ db.sessions, s.is_active = false := by
  intro s hs
  rcases pickMaxId_none (l := db.sessions.filter (fun s => s.is_active)) h with
    ⟨-, hnil⟩
  by_contra hact
  have : s ∈ db.sessions.filter (fun s => s.is_active) :=
    List.mem_filter.mpr ⟨hs, by simpa using eq_true_of_ne_false hact⟩
  rw [hnil] at this
  cases this

theorem maxTime_le {l : List Nat} {x : Nat} (hx : x ∈ l) :
    ∃ M, maxTime l = some M ∧ x ≤ M := by
  cases l with
  | nil => cases hx
  | cons t ts =>
    refine ⟨ts.foldl Nat.max t, rfl, ?_⟩
    have key : ∀ (ts : List Nat) (t : Nat), t ≤ ts.foldl Nat.max t ∧
        ∀ y ∈ ts, y ≤ ts.foldl Nat.max t := by
      intro ts
      induction ts with
      | nil => simp
      | cons u us ih =>
        intro t
        constructor
        · exact le_trans (Nat.le_max_left t u) (ih (Nat.max t u)).1
        · intro y hy
          rcases List.mem_cons.mp hy with rfl | hy'
          · exact le_trans (Nat.le_max_right t y) (ih (Nat.max t y)).1
          · exact (ih (Nat.max t u)).2 y hy'
    rcases List.mem_cons.mp hx with rfl | hx'
    · exact (key ts x).1
    · exact (key ts t).2 x hx'

/-! # Claims -/

/-- Claim C5: for every id not present in the relational store and every
partial update, `updateKnowledge(id, updates)` returns
`{success:false, vectorized:false}` and leaves the whole state (relational
store and vector index) unchanged. -/
theorem claim_C5 (st : SvcState) (id : Nat) (u : KUpdates) (embedOk : Bool)
    (now : Nat) (h : DB.getKnowledgeEntry st.db id = none) :
    Svc.updateKnowledge st id u embedOk now =
      (st, ⟨false, false⟩) := by
  simp [Svc.updateKnowledge, DB.updateKnowledgeEntry, h]

theorem claim_C5_witness :
    Svc.updateKnowledge svcInit 1 {} true 0 = (svcInit, ⟨false, false⟩) :=
  claim_C5 svcInit 1 {} true 0 rfl

/-- Claim C1: `logMessage` succeeds exactly when a session id resolves
(explicit argument, else the in-memory current session), the session
exists and it is active; on success exactly one message row is appended,
on each failure a distinguishable error is raised and the message table
is unchanged. -/
theorem claim_C1 (st : SvcState) (role content : String)
    (sid? : Option Nat) (embedOk : Bool) (now : Nat)
    (hpos : ∀ s ∈ st.db.sessions, 0 < s.id) :
    ((∃ mid, (Svc.logMessage st role content sid? embedOk now).2 = .ok mid) ↔
      ∃ tid s, sid?.orElse (fun _ => st.currentSessionId) = some tid ∧
        DB.getSession st.db tid = some s ∧ s.is_active = true) ∧
    (∀ e, (Svc.logMessage st role content sid? embedOk now).2 = .error e →
      (Svc.logMessage st role content sid? embedOk now).1.db.messages =
        st.db.messages) ∧
    (∀ mid, (Svc.logMessage st role content sid? embedOk now).2 = .ok mid →
      ∃ m, (Svc.logMessage st role content sid? embedOk now).1.db.messages =
        st.db.messages ++ [m]) ∧
    (sid?.orElse (fun _ => st.currentSessionId) = none →
      (Svc.logMessage st role content sid? embedOk now).2 =
        .error .noSession) ∧
    (∀ tid, sid?.orElse (fun _ => st.currentSessionId) = some tid →
      0 < tid → DB.getSession st.db tid = none →
      (Svc.logMessage st role content sid? embedOk now).2 =
        .error (.notFound tid)) ∧
    (∀ tid s, sid?.orElse (fun _ => st.currentSessionId) = some tid →
      DB.getSession st.db tid = some s → s.is_active = false →
      (Svc.logMessage st role content sid? embedOk now).2 =
        .error (.closed tid)) := by
  cases htgt : sid?.orElse (fun _ => st.currentSessionId) with
  | none =>
    simp only [Svc.logMessage, htgt]
    refine ⟨?_, by simp, by simp, by simp, by simp, by simp⟩
    constructor
    · rintro ⟨mid, hmid⟩; simp at hmid
    · rintro ⟨tid, s, htid, -, -⟩; cases htid
  | some tid =>
    by_cases h0 : tid = 0
    · subst h0
      have hnone : DB.getSession st.db 0 = none := by
        cases hs : DB.getSession st.db 0 with
        | none => rfl
        | some s =>
          have hmem := List.mem_of_find?_eq_some hs
          have hid : s.id = 0 := by simpa using List.find?_some hs
          have := hpos s hmem
          omega
      simp only [Svc.logMessage, htgt, if_pos rfl]
      refine ⟨?_, by simp, by simp, by simp, ?_, ?_⟩
      · constructor
        · rintro ⟨mid, hmid⟩; simp at hmid
        · rintro ⟨tid', s', htid', hsess, -⟩
          injection htid' with h'
          subst h'
          rw [hnone] at hsess
          cases hsess
      · rintro tid' htid' hpos' -
        injection htid' with h'
        omega
      · rintro tid' s' htid' hsess -
        injection htid' with h'
        subst h'
        rw [hnone] at hsess
        cases hsess
    · cases hs : DB.getSession st.db tid with
      | none =>
        simp only [Svc.logMessage, htgt, if_neg h0, hs]
        refine ⟨?_, by simp, by simp, by simp, ?_, ?_⟩
        · constructor
          · rintro ⟨mid, hmid⟩; simp at hmid
          · rintro ⟨tid', s', htid', hsess, -⟩
            injection htid' with h'
            subst h'
            rw [hs] at hsess
            cases hsess
        · rintro tid' htid' - -
          injection htid' with h'
          subst h'
          rfl
        · rintro tid' s' htid' hsess -
          injection htid' with h'
          subst h'
          rw [hs] at hsess
          cases hsess
      | some s =>
        by_cases hact : s.is_active
        · simp only [Svc.logMessage, htgt, if_neg h0, hs, hact, if_pos rfl]
          refine ⟨?_, by simp, ?_, by simp, ?_, ?_⟩
          · constructor
            · intro _; exact ⟨tid, s, rfl, hs, hact⟩
            · intro _; exact ⟨(DB.saveSessionMessage st.db tid role content now).2, rfl⟩
          · rintro mid -
            exact ⟨⟨st.db.nextMessageId, tid, role, content, now⟩, rfl⟩
          · rintro tid' htid' - hsess
            injection htid' with h'
            subst h'
            rw [hs] at hsess
            cases hsess
          · intro tid' s' htid' hsess hact'
            injection htid' with h'
            subst h'
            rw [hs] at hsess
            injection hsess with h''
            subst h''
            rw [hact] at hact'
            cases hact'
        · have hact' : s.is_active = false := by simpa using hact
          simp only [Svc.logMessage, htgt, if_neg h0, hs, hact']
          refine ⟨?_, by simp, by simp, by simp, ?_, ?_⟩
          · constructor
            · rintro ⟨mid, hmid⟩; simp at hmid
            · rintro ⟨tid', s', htid', hsess, hs'act⟩
              injection htid' with h'
              subst h'
              rw [hs] at hsess
              injection hsess with h''
              subst h''
              rw [hact'] at hs'act
              cases hs'act
          · rintro tid' htid' - hsess
            injection htid' with h'
            subst h'
            rw [hs] at hsess
            cases hsess
          · rintro tid' s' htid' hsess -
            injection htid' with h'
            subst h'
            rfl

theorem claim_C1_witness :
    (∃ mid, (Svc.logMessage exActive "user" "hi" none true 5).2 = .ok mid) ∧
    (Svc.logMessage exEnded "user" "hi" (some 1) true 5).2 =
      .error (.closed 1) := by
  constructor
  · exact (claim_C1 exActive "user" "hi" none true 5 (by decide)).1.mpr
      ⟨1, ⟨1, some "S", 0, none, none, true⟩, rfl, rfl, rfl⟩
  · exact (claim_C1 exEnded "user" "hi" (some 1) true 5
      (by decide)).2.2.2.2.2 1 ⟨1, some "S", 0, some 2, some "orig", false⟩
      rfl rfl rfl

/-- Claim C10, counterexample: ending an already-ended session with the
explicitly supplied summary `""` succeeds but stores NULL (the `|| null`
truthiness coercion), not the supplied summary — the previous summary
`"orig"` is lost either way. -/
theorem claim_C10_counterexample :
    (Svc.endSession exEnded (some 1) (some "") 3).2.success = true ∧
    (DB.getSession (Svc.endSession exEnded (some 1) (some "") 3).1.db 1).map
      (fun r => r.summary) = some none ∧
    (some none : Option (Option String)) ≠ some (some "") := by
  refine ⟨rfl, rfl, by simp⟩

/-- Claim C10 (amended): for every session that already has
`is_active = false`, `endSession` with that session's explicit id returns
success and overwrites `ended_at` with the current time and `summary` with
the supplied summary when it is non-empty, and with NULL when it is omitted
or empty — the previous summary is lost. -/
theorem claim_C10 (st : SvcState) (sid : Nat) (s : SessionRow)
    (summary : Option String) (now : Nat)
    (hs : DB.getSession st.db sid = some s) (hinact : s.is_active = false)
    (h0 : 0 < sid) :
    (Svc.endSession st (some sid) summary now).2.success = true ∧
    ∀ r ∈ (Svc.endSession st (some sid) summary now).1.db.sessions,
      r.id = sid → r.ended_at = some now ∧
        r.summary = (match summary with
                     | some str => if str = "" then none else some str
                     | none => none) := by
  have hmem := List.mem_of_find?_eq_some hs
  have hid : s.id = sid := by simpa using List.find?_some hs
  have hany : st.db.sessions.any (fun r => decide (r.id = sid)) = true :=
    List.any_eq_true.mpr ⟨s, hmem, by simpa using hid⟩
  have h0' : ¬sid = 0 := by omega
  constructor
  · simp only [Svc.endSession, Option.orElse, DB.endSession, h0', if_neg]
    simpa using hany
  · intro r hr hrid
    simp only [Svc.endSession, Option.orElse, DB.endSession, h0',
      if_neg] at hr
    obtain ⟨r0, hr0, hfr⟩ := List.mem_map.mp hr
    by_cases h : r0.id = sid
    · rw [if_pos h] at hfr
      subst hfr
      exact ⟨rfl, rfl⟩
    · rw [if_neg h] at hfr
      subst hfr
      exact absurd hrid h

theorem claim_C10_witness :
    (Svc.endSession exEnded (some 1) (some "wrap") 3).2.success = true ∧
    ((⟨1, some "S", 0, some 3, some "wrap", false⟩ : SessionRow).ended_at =
      some 3 ∧
     (⟨1, some "S", 0, some 3, some "wrap", false⟩ : SessionRow).summary =
      (match (some "wrap" : Option String) with
       | some str => if str = "" then none else some str
       | none => none)) :=
  ⟨(claim_C10 exEnded 1 ⟨1, some "S", 0, some 2, some "orig", false⟩
      (some "wrap") 3 rfl rfl (by omega)).1,
   (claim_C10 exEnded 1 ⟨1, some "S", 0, some 2, some "orig", false⟩
      (some "wrap") 3 rfl rfl (by omega)).2
     ⟨1, some "S", 0, some 3, some "wrap", false⟩ (by decide) rfl⟩

/-- The SQL timeout condition coincides with the claims' formulation
(last activity, defaulting to the start time, below the cutoff, plus the
start-time guard). -/
theorem timedOutCond_eq_claim (db : Db) (cutoff : Nat) (s : SessionRow) :
    DB.timedOutCond db cutoff s = claimTimedOut db cutoff s := by
  unfold DB.timedOutCond claimTimedOut lastActivity
  cases h : DB.lastMsgTime db s.id with
  | none => simp
  | some m => simp

/-- Claim C3: the timeout sweep closes exactly the active sessions whose
last activity (most recent message, else start time) and start time are
both older than the 1-hour cutoff, marks them with the fixed summary, and
returns the number of sessions closed; a session having any message at or
after the cutoff is never touched; the service wrapper reports the same
count. -/
theorem claim_C3 (db : Db) (now : Nat) :
    (DB.closeTimedOutSessions db now).1.sessions =
      db.sessions.map (fun s =>
        if claimTimedOut db (now - DB.SESSION_TIMEOUT_MS) s then
          sweepClosed now s
        else s) ∧
    (DB.closeTimedOutSessions db now).2 =
      (db.sessions.filter
        (claimTimedOut db (now - DB.SESSION_TIMEOUT_MS))).length ∧
    (∀ s ∈ db.sessions, ∀ m ∈ db.messages, m.session_id = s.id →
      now - DB.SESSION_TIMEOUT_MS ≤ m.created_at →
      (if claimTimedOut db (now - DB.SESSION_TIMEOUT_MS) s then
         sweepClosed now s
       else s) = s) ∧
    (∀ v cur, (Svc.closeTimedOutSessions ⟨db, v, cur⟩ now).2 =
      (DB.closeTimedOutSessions db now).2) := by
  refine ⟨?_, ?_, ?_, fun v cur => rfl⟩
  · simp only [DB.closeTimedOutSessions]
    exact List.map_congr_left (fun s _ => by
      rw [timedOutCond_eq_claim]; rfl)
  · simp only [DB.closeTimedOutSessions]
    rw [List.filter_congr (fun s _ => timedOutCond_eq_claim db _ s)]
  · intro s hs m hm hsid hge
    have hmm : m.created_at ∈
        ((db.messages.filter (fun x => decide (x.session_id = s.id))).map
          (fun x => x.created_at)) :=
      List.mem_map.mpr ⟨m, List.mem_filter.mpr ⟨hm, by simpa using hsid⟩, rfl⟩
    obtain ⟨M, hM, hle⟩ := maxTime_le hmm
    have hcond : claimTimedOut db (now - DB.SESSION_TIMEOUT_MS) s = false := by
      unfold claimTimedOut lastActivity DB.lastMsgTime
      rw [hM]
      simp only [Option.getD_some]
      have : ¬(M < now - DB.SESSION_TIMEOUT_MS) := by omega
      simp [this]
    rw [hcond]
    simp

theorem claim_C3_witness :
    (DB.closeTimedOutSessions exStale 7200000).1.sessions =
      exStale.sessions.map (fun s =>
        if claimTimedOut exStale (7200000 - DB.SESSION_TIMEOUT_MS) s then
          sweepClosed 7200000 s
        else s) ∧
    (DB.closeTimedOutSessions exStale 7200000).2 =
      (exStale.sessions.filter
        (claimTimedOut exStale (7200000 - DB.SESSION_TIMEOUT_MS))).length :=
  ⟨(claim_C3 exStale 7200000).1, (claim_C3 exStale 7200000).2.1⟩

/-- Claim C7: `searchSession` (resp. `searchAllSessions`) asks the vector
index for exactly `2 × limit` ranked raw candidates, keeps (after the
query's own score threshold) only candidates carrying the `session:<id>`
tag (resp. some tag starting with `session:`), and truncates to `limit`;
hence every returned result carries the required tag, at most `limit`
results are returned, and their order follows the engine's ranking. -/
theorem claim_C7 (st : SvcState) (ranked : List (VRow × ℚ)) (sessionId : Nat)
    (q : String) (l : Nat) (tbl : List VRow) (h : st.vectors = some tbl) :
    (Svc.searchSession st ranked sessionId q l =
      .ok (((((ranked.take (l * 2)).map Svc.toSearchResult).filter
          (fun r => decide ((3 : ℚ) / 10 ≤ r.score))).filter
          (fun r => r.tags.contains ("session:" ++ toString sessionId))).take
        l)) ∧
    (∀ res, Svc.searchSession st ranked sessionId q l = .ok res →
      res.length ≤ l ∧
      (∀ r ∈ res, ("session:" ++ toString sessionId) ∈ r.tags) ∧
      res.Sublist (ranked.map Svc.toSearchResult)) ∧
    (Svc.searchAllSessions st ranked q l =
      .ok (((((ranked.take (l * 2)).map Svc.toSearchResult).filter
          (fun r => decide ((3 : ℚ) / 10 ≤ r.score))).filter
          (fun r => r.tags.any (fun t => t.startsWith ("session:")))).take
        l)) ∧
    (∀ res, Svc.searchAllSessions st ranked q l = .ok res →
      res.length ≤ l ∧
      (∀ r ∈ res, ∃ t ∈ r.tags, t.startsWith ("session:") = true) ∧
      res.Sublist (ranked.map Svc.toSearchResult)) := by
  have hq : Svc.queryVectors st ranked (l * 2) (3 / 10) =
      .ok (((ranked.take (l * 2)).map Svc.toSearchResult).filter
        (fun r => decide ((3 : ℚ) / 10 ≤ r.score))) := by
    simp [Svc.queryVectors, h]
  have hsub : ∀ (p : SearchResult → Bool),
      (((((ranked.take (l * 2)).map Svc.toSearchResult).filter
          (fun r => decide ((3 : ℚ) / 10 ≤ r.score))).filter p).take
        l).Sublist (ranked.map Svc.toSearchResult) := by
    intro p
    refine List.Sublist.trans (List.take_sublist _ _) ?_
    refine List.Sublist.trans (List.filter_sublist _) ?_
    refine List.Sublist.trans (List.filter_sublist _) ?_
    exact (List.take_sublist _ _).map Svc.toSearchResult
  refine ⟨?_, ?_, ?_, ?_⟩
  · simp [Svc.searchSession, hq]
  · intro res hres
    simp only [Svc.searchSession, hq] at hres
    injection hres with hres
    subst hres
    refine ⟨List.length_take_le _ _, ?_, hsub _⟩
    intro r hr
    have hr' := List.mem_of_mem_take hr
    have := (List.mem_filter.mp hr').2
    simpa using this
  · simp [Svc.searchAllSessions, hq]
  · intro res hres
    simp only [Svc.searchAllSessions, hq] at hres
    injection hres with hres
    subst hres
    refine ⟨List.length_take_le _ _, ?_, hsub _⟩
    intro r hr
    have hr' := List.mem_of_mem_take hr
    have := (List.mem_filter.mp hr').2
    simpa using this

theorem claim_C7_witness :
    Svc.searchSession exVec exRanked 1 "query" 1 =
      .ok (((((exRanked.take (1 * 2)).map Svc.toSearchResult).filter
          (fun r => decide ((3 : ℚ) / 10 ≤ r.score))).filter
          (fun r => r.tags.contains ("session:" ++ toString 1))).take 1) :=
  (claim_C7 exVec exRanked 1 "query" 1 [] rfl).1

/-- Claim C4: in every database reachable through the session operations,
every session row satisfies `is_active == (ended_at == null)`. -/
theorem claim_C4 (db : Db) (hr : DbReach db) :
    ∀ s ∈ db.sessions, s.is_active = true ↔ s.ended_at = none := by
  induction hr with
  | init => intro s hs; cases hs
  | @step db0 op _ ih =>
    cases op with
    | create name now =>
      intro s hs
      simp only [applyDbOp, DB.createSession] at hs
      rcases List.mem_append.mp hs with h | h
      · exact ih s h
      · rw [List.mem_singleton.mp h]
        simp
    | endS id summary now =>
      intro s hs
      simp only [applyDbOp, DB.endSession] at hs
      obtain ⟨r0, hr0, hfr⟩ := List.mem_map.mp hs
      by_cases h : r0.id = id
      · rw [if_pos h] at hfr
        rw [← hfr]
        simp
      · rw [if_neg h] at hfr
        rw [← hfr]
        exact ih r0 hr0
    | saveMsg sid role content now =>
      intro s hs
      exact ih s (by simpa [applyDbOp, DB.saveSessionMessage] using hs)
    | sweep now =>
      intro s hs
      simp only [applyDbOp, DB.closeTimedOutSessions] at hs
      obtain ⟨r0, hr0, hfr⟩ := List.mem_map.mp hs
      by_cases h : DB.timedOutCond db0 (now - DB.SESSION_TIMEOUT_MS) r0 = true
      · rw [if_pos h] at hfr
        rw [← hfr]
        simp
      · rw [if_neg h] at hfr
        rw [← hfr]
        exact ih r0 hr0

theorem claim_C4_witness :
    (⟨1, some "x", 3, none, none, true⟩ : SessionRow).is_active = true ↔
    (⟨1, some "x", 3, none, none, true⟩ : SessionRow).ended_at = none :=
  claim_C4 (applyDbOp dbInit (.create (some "x") 3))
    (DbReach.step (.create (some "x") 3) DbReach.init)
    ⟨1, some "x", 3, none, none, true⟩ (by decide)

/-- Two members of a list of length at most one coincide. -/
theorem mem_eq_of_length_le_one {l : List α} {a b : α} (h : l.length ≤ 1)
    (ha : a ∈ l) (hb : b ∈ l) : a = b := by
  match l, h with
  | [], _ => cases ha
  | [x], _ => rw [List.mem_singleton.mp ha, List.mem_singleton.mp hb]

/-- `logMessage` never touches the session table. -/
theorem logMessage_sessions (st : SvcState) (role content : String)
    (sid? : Option Nat) (embedOk : Bool) (now : Nat) :
    (Svc.logMessage st role content sid? embedOk now).1.db.sessions =
      st.db.sessions ∧
    (Svc.logMessage st role content sid? embedOk now).1.db.nextSessionId =
      st.db.nextSessionId := by
  unfold Svc.logMessage
  cases sid?.orElse (fun _ => st.currentSessionId) with
  | none => exact ⟨rfl, rfl⟩
  | some tid =>
    by_cases h0 : tid = 0
    · simp [h0]
    · simp only [if_neg h0]
      cases DB.getSession st.db tid with
      | none => exact ⟨rfl, rfl⟩
      | some s =>
        by_cases hact : s.is_active = true
        · simp [hact, DB.saveSessionMessage]
        · simp [hact]

/-- The inductive service-level invariant: session ids are below the id
counter, and at most one session is active. -/
theorem svcInv (st : SvcState) (hr : SvcReach st) :
    (∀ s ∈ st.db.sessions, s.id < st.db.nextSessionId) ∧
    countActive st.db ≤ 1 := by
  induction hr with
  | init => exact ⟨fun s hs => absurd hs (by simp [svcInit, dbInit]), by
      simp [countActive, svcInit, dbInit]⟩
  | @step st0 op _ ih =>
    cases op with
    | start name now =>
      cases hact : DB.getActiveSession st0.db with
      | none =>
        have hzero : countActive st0.db = 0 :=
          List.countP_eq_zero.mpr (fun s hs => by
            rw [getActiveSession_none hact s hs]; simp)
        constructor
        · intro s hs
          simp only [applySvcOp, Svc.startLoggingSession, hact,
            DB.createSession] at hs ⊢
          rcases List.mem_append.mp hs with h | h
          · exact Nat.lt_succ_of_lt (ih.1 s h)
          · rw [List.mem_singleton.mp h]
            exact Nat.lt_succ_self _
        · simp only [applySvcOp, Svc.startLoggingSession, hact,
            DB.createSession, countActive, List.countP_append]
          rw [show (st0.db.sessions.countP (fun s => s.is_active)) = 0 from
            hzero]
          simp
      | some a =>
        obtain ⟨hmem_a, hact_a⟩ := getActiveSession_some hact
        have hlen : (st0.db.sessions.filter (fun s => s.is_active)).length ≤ 1 := by
          have := ih.2
          rwa [countActive, List.countP_eq_length_filter] at this
        have hzero :
            ((DB.endSession st0.db a.id (some Svc.autoCloseMarker) now).1.sessions).countP
              (fun s => s.is_active) = 0 := by
          simp only [DB.endSession]
          rw [List.countP_map]
          apply List.countP_eq_zero.mpr
          intro r0 hr0 hp
          simp only [Function.comp_apply] at hp
          by_cases h : r0.id = a.id
          · rw [if_pos h] at hp
            simp at hp
          · rw [if_neg h] at hp
            have hr0f : r0 ∈ st0.db.sessions.filter (fun s => s.is_active) :=
              List.mem_filter.mpr ⟨hr0, hp⟩
            have haf : a ∈ st0.db.sessions.filter (fun s => s.is_active) :=
              List.mem_filter.mpr ⟨hmem_a, by simpa using hact_a⟩
            exact h (congrArg SessionRow.id
              (mem_eq_of_length_le_one hlen hr0f haf))
        constructor
        · intro s hs
          simp only [applySvcOp, Svc.startLoggingSession, hact,
            DB.createSession, DB.endSession] at hs ⊢
          rcases List.mem_append.mp hs with h | h
          · obtain ⟨r0, hr0, hfr⟩ := List.mem_map.mp h
            have hid : s.id = r0.id := by
              by_cases hc : r0.id = a.id
              · rw [if_pos hc] at hfr
                rw [← hfr]
              · rw [if_neg hc] at hfr
                rw [← hfr]
            rw [hid]
            exact Nat.lt_succ_of_lt (ih.1 r0 hr0)
          · rw [List.mem_singleton.mp h]
            exact Nat.lt_succ_self _
        · simp only [applySvcOp, Svc.startLoggingSession, hact,
            DB.createSession, countActive, List.countP_append]
          rw [hzero]
          simp
    | log role content sid? embedOk now =>
      obtain ⟨h1, h2⟩ := logMessage_sessions st0 role content sid? embedOk now
      refine ⟨?_, ?_⟩
      · intro s hs
        simp only [applySvcOp] at hs ⊢
        rw [h1] at hs
        rw [h2]
        exact ih.1 s hs
      · simp only [applySvcOp, countActive]
        rw [h1]
        exact ih.2
    | endS sid? summary now =>
      cases htgt : sid?.orElse (fun _ => st0.currentSessionId) with
      | none =>
        simpa [applySvcOp, Svc.endSession, htgt] using ih
      | some tid =>
        by_cases h0 : tid = 0
        · simpa [applySvcOp, Svc.endSession, htgt, h0] using ih
        · constructor
          · intro s hs
            simp only [applySvcOp, Svc.endSession, htgt, if_neg h0,
              DB.endSession] at hs ⊢
            obtain ⟨r0, hr0, hfr⟩ := List.mem_map.mp hs
            have hid : s.id = r0.id := by
              by_cases hc : r0.id = tid
              · rw [if_pos hc] at hfr; rw [← hfr]
              · rw [if_neg hc] at hfr; rw [← hfr]
            rw [hid]
            exact ih.1 r0 hr0
          · simp only [applySvcOp, Svc.endSession, htgt, if_neg h0,
              DB.endSession, countActive]
            rw [List.countP_map]
            refine le_trans (List.countP_mono_left ?_) ih.2
            intro r0 _ hp
            by_cases hc : r0.id = tid
            · simp [Function.comp, hc] at hp
            · simpa [Function.comp, hc] using hp
    | sweep now =>
      constructor
      · intro s hs
        simp only [applySvcOp, Svc.closeTimedOutSessions,
          DB.closeTimedOutSessions] at hs ⊢
        obtain ⟨r0, hr0, hfr⟩ := List.mem_map.mp hs
        have hid : s.id = r0.id := by
          by_cases hc : DB.timedOutCond st0.db (now - DB.SESSION_TIMEOUT_MS) r0 = true
          · rw [if_pos hc] at hfr; rw [← hfr]
          · rw [if_neg hc] at hfr; rw [← hfr]
        rw [hid]
        exact ih.1 r0 hr0
      · simp only [applySvcOp, Svc.closeTimedOutSessions,
          DB.closeTimedOutSessions, countActive]
        rw [List.countP_map]
        refine le_trans (List.countP_mono_left ?_) ih.2
        intro r0 _ hp
        by_cases hc : DB.timedOutCond st0.db (now - DB.SESSION_TIMEOUT_MS) r0 = true
        · simp [Function.comp, hc] at hp
        · simpa [Function.comp, hc] using hp

/-- Claim C2: starting a logging session in a reachable state first
auto-ends the persisted active session (if any) with the fixed marker
summary, then creates a new active session (`ended_at = null`) with the
fresh id, makes it the in-memory current session, and afterwards at most
one persisted session is active. -/
theorem claim_C2 (st : SvcState) (name : Option String) (now : Nat)
    (hr : SvcReach st) :
    (∀ a, DB.getActiveSession st.db = some a →
      ∀ r ∈ (Svc.startLoggingSession st name now).1.db.sessions,
        r.id = a.id →
          r.is_active = false ∧ r.summary = some Svc.autoCloseMarker) ∧
    ((⟨st.db.nextSessionId,
        (match name with
         | some n => if n = "" then none else some n
         | none => none), now, none, none, true⟩ : SessionRow) ∈
      (Svc.startLoggingSession st name now).1.db.sessions) ∧
    ((Svc.startLoggingSession st name now).2 = st.db.nextSessionId) ∧
    ((Svc.startLoggingSession st name now).1.currentSessionId =
      some st.db.nextSessionId) ∧
    countActive (Svc.startLoggingSession st name now).1.db ≤ 1 := by
  have hinv := svcInv st hr
  have hafter := (svcInv (applySvcOp st (.start name now))
    (SvcReach.step (.start name now) hr)).2
  refine ⟨?_, ?_, ?_, ?_, hafter⟩
  · intro a hact r hrmem hrid
    obtain ⟨hmem_a, -⟩ := getActiveSession_some hact
    have hida : a.id < st.db.nextSessionId := hinv.1 a hmem_a
    simp only [Svc.startLoggingSession, hact, DB.createSession,
      DB.endSession] at hrmem
    rcases List.mem_append.mp hrmem with h | h
    · obtain ⟨r0, hr0, hfr⟩ := List.mem_map.mp h
      by_cases hc : r0.id = a.id
      · rw [if_pos hc] at hfr
        rw [← hfr]
        exact ⟨rfl, by simp [Svc.autoCloseMarker]⟩
      · rw [if_neg hc] at hfr
        rw [← hfr] at hrid
        exact absurd hrid hc
    · rw [List.mem_singleton.mp h] at hrid
      simp only at hrid
      omega
  · cases hact : DB.getActiveSession st.db with
    | none =>
      simp only [Svc.startLoggingSession, hact, DB.createSession]
      exact List.mem_append_right _ (List.mem_singleton.mpr rfl)
    | some a =>
      simp only [Svc.startLoggingSession, hact, DB.createSession,
        DB.endSession]
      exact List.mem_append_right _ (List.mem_singleton.mpr rfl)
  · cases hact : DB.getActiveSession st.db with
    | none => simp [Svc.startLoggingSession, hact, DB.createSession]
    | some a =>
      simp [Svc.startLoggingSession, hact, DB.createSession, DB.endSession]
  · cases hact : DB.getActiveSession st.db with
    | none => simp [Svc.startLoggingSession, hact, DB.createSession]
    | some a =>
      simp [Svc.startLoggingSession, hact, DB.createSession, DB.endSession]

/-! ## Character-level lemmas for the `LIKE` analysis -/

theorem char_toNat_ofNat {n : Nat} (h : n < 0xd800) :
    (Char.ofNat n).toNat = n := by
  have hv : n.isValidChar := Or.inl h
  rw [Char.ofNat, dif_pos hv]
  simp [Char.toNat, Char.ofNatAux, UInt32.toNat, BitVec.toNat_ofNatLt]

theorem lchar_idem (c : Char) : lchar (lchar c) = lchar c := by
  unfold lchar
  by_cases h : 65 ≤ c.toNat ∧ c.toNat ≤ 90
  · rw [if_pos h]
    have ht : (Char.ofNat (c.toNat + 32)).toNat = c.toNat + 32 :=
      char_toNat_ofNat (by omega)
    rw [if_neg (by rw [ht]; omega)]
  · rw [if_neg h, if_neg h]

theorem lstr_idem (s : List Char) : lstr (lstr s) = lstr s := by
  simp only [lstr, List.map_map]
  exact List.map_congr_left (fun c _ => lchar_idem c)

theorem lchar_plain {c : Char} (h : plainChar c = true) : lchar c = c := by
  unfold lchar
  rw [if_neg]
  simp only [plainChar, Bool.or_eq_true, Bool.and_eq_true,
    decide_eq_true_eq] at h
  rcases h with (⟨h1, h2⟩ | ⟨h1, h2⟩) | rfl
  · omega
  · omega
  · decide

theorem plain_ne_quote {c : Char} (h : plainChar c = true) : c ≠ '"' := by
  intro heq; subst heq; revert h; decide

theorem plain_ne_bslash {c : Char} (h : plainChar c = true) : c ≠ '\\' := by
  intro heq; subst heq; revert h; decide

theorem plain_ne_comma {c : Char} (h : plainChar c = true) : c ≠ ',' := by
  intro heq; subst heq; revert h; decide

theorem plain_ne_rbracket {c : Char} (h : plainChar c = true) : c ≠ ']' := by
  intro heq; subst heq; revert h; decide

theorem plain_ne_percent {c : Char} (h : plainChar c = true) : c ≠ '%' := by
  intro heq; subst heq; revert h; decide

theorem plain_ne_underscore {c : Char} (h : plainChar c = true) : c ≠ '_' := by
  intro heq; subst heq; revert h; decide

/-! ## `likeMatch` characterization for wildcard-free patterns -/

theorem likeMatch_percent {ps s : List Char} :
    likeMatch ('%' :: ps) s = true ↔
      ∃ t, t <:+ s ∧ likeMatch ps t = true := by
  simp [likeMatch, List.any_eq_true, List.mem_tails]

theorem likeMatch_cons {c : Char} {ps s : List Char} (h1 : c ≠ '%')
    (h2 : c ≠ '_') :
    likeMatch (c :: ps) s =
      match s with
      | [] => false
      | d :: s' => lowerEq c d && likeMatch ps s' := by
  cases s <;> simp [likeMatch, h1, h2]

theorem likeMatch_append_percent {p : List Char} (hp : noWildcard p = true) :
    ∀ s : List Char, likeMatch (p ++ ['%']) s = true ↔
      ∃ m v, s = m ++ v ∧ lstr m = lstr p := by
  induction p with
  | nil =>
    intro s
    constructor
    · intro _; exact ⟨[], s, rfl, rfl⟩
    · intro _
      rw [List.nil_append, likeMatch_percent]
      exact ⟨[], List.nil_suffix, rfl⟩
  | cons c p' ih =>
    simp only [noWildcard, List.all_cons, Bool.and_eq_true,
      decide_eq_true_eq] at hp
    obtain ⟨⟨hc1, hc2⟩, hp'⟩ := hp
    have ih' := ih (by simpa [noWildcard] using hp')
    intro s
    rw [List.cons_append, likeMatch_cons hc1 hc2]
    cases s with
    | nil =>
      constructor
      · intro h; cases h
      · rintro ⟨m, v, hsplit, heq⟩
        obtain ⟨rfl, rfl⟩ := List.append_eq_nil.mp hsplit.symm
        simp [lstr] at heq
    | cons d s' =>
      simp only [Bool.and_eq_true]
      constructor
      · rintro ⟨hlc, hrest⟩
        obtain ⟨m', v, rfl, heq⟩ := (ih' s').mp hrest
        refine ⟨d :: m', v, rfl, ?_⟩
        have hcd : lchar c = lchar d := by
          simpa [lowerEq] using hlc
        simp only [lstr, List.map_cons]
        rw [← hcd]
        simp only [lstr] at heq
        rw [heq]
      · rintro ⟨m, v, hsplit, heq⟩
        cases m with
        | nil => simp [lstr] at heq
        | cons e m' =>
          rw [List.cons_append] at hsplit
          injection hsplit with h1 h2
          subst h1
          simp only [lstr, List.map_cons] at heq
          injection heq with h3 h4
          exact ⟨by simp [lowerEq, h3], (ih' s').mpr ⟨m', v, h2, h4⟩⟩

theorem likeMatch_sandwich {p : List Char} (hp : noWildcard p = true)
    (s : List Char) :
    likeMatch ('%' :: (p ++ ['%'])) s = true ↔ lstr p <:+: lstr s := by
  rw [likeMatch_percent]
  constructor
  · rintro ⟨t, ⟨u, rfl⟩, hm⟩
    obtain ⟨m, v, rfl, heq⟩ := (likeMatch_append_percent hp t).mp hm
    refine ⟨lstr u, lstr v, ?_⟩
    simp only [lstr, List.map_append]
    rw [show List.map lchar p = List.map lchar m from heq.symm]
    simp [List.append_assoc]
  · rintro ⟨U, V, hUV⟩
    have hs : s.map lchar = U ++ (lstr p ++ V) := by
      rw [show s.map lchar = lstr s from rfl, ← hUV, List.append_assoc]
    obtain ⟨u, w, rfl, hu, hw⟩ := List.map_eq_append_iff.mp hs
    obtain ⟨m, v, rfl, hm, hv⟩ := List.map_eq_append_iff.mp hw
    refine ⟨m ++ v, ⟨u, rfl⟩, (likeMatch_append_percent hp _).mpr
      ⟨m, v, rfl, hm⟩⟩

/-! ## Quote-splitting analysis of the serialized tag column -/

theorem splitQ_ne_nil (s : List Char) : splitQ s ≠ [] := by
  induction s with
  | nil => simp [splitQ]
  | cons c cs ih =>
    simp only [splitQ]
    cases h : splitQ cs with
    | nil => simp
    | cons h' t => by_cases hc : c = '"' <;> simp [hc]

theorem splitQ_quote (cs : List Char) : splitQ ('"' :: cs) = [] :: splitQ cs := by
  simp only [splitQ]
  cases h : splitQ cs with
  | nil => exact absurd h (splitQ_ne_nil cs)
  | cons h' t => simp

theorem splitQ_cons_ne {c : Char} (hc : c ≠ '"') (cs : List Char) :
    ∃ h t, splitQ cs = h :: t ∧ splitQ (c :: cs) = (c :: h) :: t := by
  cases hsq : splitQ cs with
  | nil => exact absurd hsq (splitQ_ne_nil cs)
  | cons h' t =>
    refine ⟨h', t, rfl, ?_⟩
    simp [splitQ, hsq, hc]

theorem splitQ_append_noquote {a : List Char} (ha : ∀ c ∈ a, c ≠ '"') :
    ∀ b : List Char, ∃ h t, splitQ b = h :: t ∧
      splitQ (a ++ b) = (a ++ h) :: t := by
  induction a with
  | nil =>
    intro b
    cases hsq : splitQ b with
    | nil => exact absurd hsq (splitQ_ne_nil b)
    | cons h' t => exact ⟨h', t, rfl, by simpa using hsq⟩
  | cons c a' ih =>
    intro b
    have hc : c ≠ '"' := ha c (by simp)
    obtain ⟨h, t, h1, h2⟩ := ih (fun x hx => ha x (by simp [hx])) b
    obtain ⟨h2', t2', h3, h4⟩ := splitQ_cons_ne hc (a' ++ b)
    rw [h2] at h3
    injection h3 with h5 h6
    refine ⟨h, t, h1, ?_⟩
    rw [List.cons_append, h4, ← h5, ← h6]
    simp

theorem splitQ_infix_mem {x : List Char} (hx : ∀ c ∈ x, c ≠ '"') :
    ∀ u v : List Char, x ∈ (splitQ (u ++ '"' :: (x ++ '"' :: v))).tail := by
  intro u
  induction u with
  | nil =>
    intro v
    rw [List.nil_append, splitQ_quote]
    obtain ⟨h, t, h1, h2⟩ := splitQ_append_noquote hx ('"' :: v)
    rw [splitQ_quote] at h1
    injection h1 with h3 h4
    rw [h2, ← h3]
    simp
  | cons c u' ih =>
    intro v
    rw [List.cons_append]
    by_cases hc : c = '"'
    · subst hc
      rw [splitQ_quote]
      exact List.mem_of_mem_tail (ih v)
    · obtain ⟨h, t, h1, h2⟩ := splitQ_cons_ne hc (u' ++ '"' :: (x ++ '"' :: v))
      rw [h2]
      have hmem := ih v
      rw [h1] at hmem
      simpa using hmem

theorem flatMap_escJson_plain {l : List Char} (h : ∀ c ∈ l, plainChar c = true) :
    l.flatMap escJson = l := by
  induction l with
  | nil => rfl
  | cons c cs ih =>
    rw [List.flatMap_cons, ih (fun x hx => h x (by simp [hx]))]
    have hc := h c (by simp)
    rw [escJson, if_neg]
    · rfl
    · push_neg
      exact ⟨plain_ne_quote hc, plain_ne_bslash hc⟩

theorem serializeInner_cons_shape (t : String) (ts : List String) :
    ∃ Y, serializeInner (t :: ts) = '"' :: Y := by
  cases ts with
  | nil => exact ⟨t.data.flatMap escJson ++ ['"'], rfl⟩
  | cons t2 ts' =>
    exact ⟨(t.data.flatMap escJson ++ ['"']) ++ ',' :: serializeInner (t2 :: ts'),
      by simp [serializeInner, quoteTag]⟩

/-- Every quote-delimited segment of the serialized inner tag list (with
the closing bracket appended) is empty, a tag, a comma, or the bracket. -/
theorem splitQ_inner_mem :
    ∀ (tl : List String), (∀ t ∈ tl, plainTag t = true) →
      ∀ x ∈ splitQ (serializeInner tl ++ [']']),
        x = [] ∨ (∃ t ∈ tl, x = t.data) ∨ x = [','] ∨ x = [']'] := by
  intro tl
  induction tl with
  | nil =>
    intro _ x hx
    simp only [serializeInner, List.nil_append] at hx
    rw [show splitQ [']'] = [[']']] from rfl] at hx
    simp at hx
    simp [hx]
  | cons t ts ih =>
    intro htl x hx
    have htplain : ∀ c ∈ t.data, plainChar c = true := by
      have := htl t (by simp)
      simp only [plainTag, Bool.and_eq_true, List.all_eq_true] at this
      exact fun c hc => this.2 c hc
    have hesc : t.data.flatMap escJson = t.data := flatMap_escJson_plain htplain
    have hnq : ∀ c ∈ t.data, c ≠ '"' := fun c hc => plain_ne_quote (htplain c hc)
    cases ts with
    | nil =>
      simp only [serializeInner, quoteTag, hesc, List.cons_append,
        List.append_assoc, List.singleton_append, List.nil_append] at hx
      rw [splitQ_quote] at hx
      obtain ⟨h, tt, h1, h2⟩ := splitQ_append_noquote hnq ('"' :: [']'])
      rw [splitQ_quote] at h1
      injection h1 with h3 h4
      rw [h2, ← h3, ← h4] at hx
      rw [show splitQ [']'] = [[']']] from rfl] at hx
      simp only [List.append_nil, List.mem_cons, List.mem_singleton,
        List.not_mem_nil, or_false] at hx
      rcases hx with hx | hx | hx
      · exact Or.inl hx
      · exact Or.inr (Or.inl ⟨t, by simp, hx⟩)
      · exact Or.inr (Or.inr (Or.inr hx))
    | cons t2 ts' =>
      simp only [serializeInner, quoteTag, hesc, List.cons_append,
        List.append_assoc, List.singleton_append, List.nil_append] at hx
      rw [splitQ_quote] at hx
      obtain ⟨h, tt, h1, h2⟩ := splitQ_append_noquote hnq
        ('"' :: (',' :: (serializeInner (t2 :: ts') ++ [']'])))
      rw [splitQ_quote] at h1
      injection h1 with h3 h4
      rw [h2, ← h3, ← h4] at hx
      simp only [List.append_nil] at hx
      obtain ⟨Y, hY⟩ := serializeInner_cons_shape t2 ts'
      have hcomma : ∃ t3, splitQ (',' :: (serializeInner (t2 :: ts') ++ [']'])) =
          [','] :: t3 ∧ splitQ (serializeInner (t2 :: ts') ++ [']']) = [] :: t3 := by
        obtain ⟨h5, t5, h6, h7⟩ := splitQ_cons_ne (by decide : ',' ≠ '"')
          (serializeInner (t2 :: ts') ++ [']'])
        have hshape : serializeInner (t2 :: ts') ++ [']'] = '"' :: (Y ++ [']']) := by
          rw [hY, List.cons_append]
        rw [hshape, splitQ_quote] at h6
        injection h6 with h8 h9
        refine ⟨t5, ?_, ?_⟩
        · rw [h7, ← h8]
        · rw [hshape, splitQ_quote, h9]
      obtain ⟨t3, hc1, hc2⟩ := hcomma
      rw [hc1] at hx
      simp only [List.mem_cons] at hx
      rcases hx with hx | hx | hx | hx
      · exact Or.inl hx
      · exact Or.inr (Or.inl ⟨t, by simp, hx⟩)
      · exact Or.inr (Or.inr (Or.inl hx))
      · have hx3 : x ∈ splitQ (serializeInner (t2 :: ts') ++ [']']) := by
          rw [hc2]
          exact List.mem_cons_of_mem _ hx
        rcases ih (fun u hu => htl u (by simp [hu])) x hx3 with
          hr | ⟨u, hu, hr⟩ | hr | hr
        · exact Or.inl hr
        · exact Or.inr (Or.inl ⟨u, by simp [hu], hr⟩)
        · exact Or.inr (Or.inr (Or.inl hr))
        · exact Or.inr (Or.inr (Or.inr hr))

theorem any_congr {l : List α} {f g : α → Bool} (h : ∀ a ∈ l, f a = g a) :
    l.any f = l.any g := by
  induction l with
  | nil => rfl
  | cons x xs ih =>
    simp only [List.any_cons, h x (by simp),
      ih (fun a ha => h a (by simp [ha]))]

theorem serializeInner_chars :
    ∀ (tl : List String), (∀ t ∈ tl, plainTag t = true) →
      ∀ c ∈ serializeInner tl, lchar c = c := by
  intro tl
  induction tl with
  | nil => simp [serializeInner]
  | cons t ts ih =>
    intro htl c hc
    have htplain : ∀ c ∈ t.data, plainChar c = true := by
      have := htl t (by simp)
      simp only [plainTag, Bool.and_eq_true, List.all_eq_true] at this
      exact fun c hc => this.2 c hc
    have hesc : t.data.flatMap escJson = t.data := flatMap_escJson_plain htplain
    cases ts with
    | nil =>
      rw [show serializeInner [t] = '"' :: (t.data ++ ['"']) by
        simp [serializeInner, quoteTag, hesc]] at hc
      rcases List.mem_cons.mp hc with rfl | hc2
      · decide
      · rcases List.mem_append.mp hc2 with hc3 | hc3
        · exact lchar_plain (htplain c hc3)
        · rw [List.mem_singleton.mp hc3]
          decide
    | cons t2 ts' =>
      rw [show serializeInner (t :: t2 :: ts') =
          '"' :: (t.data ++ '"' :: ',' :: serializeInner (t2 :: ts')) by
        simp [serializeInner, quoteTag, hesc]] at hc
      rcases List.mem_cons.mp hc with rfl | hc2
      · decide
      · rcases List.mem_append.mp hc2 with hc3 | hc3
        · exact lchar_plain (htplain c hc3)
        · rcases List.mem_cons.mp hc3 with rfl | hc4
          · decide
          · rcases List.mem_cons.mp hc4 with rfl | hc5
            · decide
            · exact ih (fun u hu => htl u (by simp [hu])) c hc5

theorem lstr_serializeTags {tl : List String}
    (h : ∀ t ∈ tl, plainTag t = true) :
    lstr (serializeTags tl) = serializeTags tl := by
  have hfix : ∀ c ∈ serializeTags tl, lchar c = c := by
    intro c hc
    rw [show serializeTags tl = '[' :: (serializeInner tl ++ [']']) from
      rfl] at hc
    rcases List.mem_cons.mp hc with rfl | hc2
    · decide
    · rcases List.mem_append.mp hc2 with hc3 | hc3
      · exact serializeInner_chars tl h c hc3
      · rw [List.mem_singleton.mp hc3]
        decide
  have : List.map lchar (serializeTags tl) = List.map id (serializeTags tl) :=
    List.map_congr_left (fun c hc => hfix c hc)
  simpa [lstr] using this

theorem lstr_quoted_plain {x : List Char} (h : ∀ c ∈ x, plainChar c = true) :
    lstr ('"' :: (x ++ ['"'])) = '"' :: (x ++ ['"']) := by
  have hfix : ∀ c ∈ '"' :: (x ++ ['"']), lchar c = c := by
    intro c hc
    rcases List.mem_cons.mp hc with rfl | hc2
    · decide
    · rcases List.mem_append.mp hc2 with hc3 | hc3
      · exact lchar_plain (h c hc3)
      · rw [List.mem_singleton.mp hc3]
        decide
  have : List.map lchar ('"' :: (x ++ ['"'])) =
      List.map id ('"' :: (x ++ ['"'])) :=
    List.map_congr_left (fun c hc => hfix c hc)
  simpa [lstr] using this

/-- Claim C8, counterexample: the requested tag `","` matches an entry
tagged `["a","b"]` (the pattern `%","%` finds the comma-quote separator of
the serialized JSON array), although `","` is in no tag set. -/
theorem claim_C8_counterexample :
    Svc.listKnowledge (Svc.addKnowledge svcInit "T" "c" none
        (some ["a", "b"]) true 1).1 20 0 (some [","]) =
      [⟨1, "T", "c", none, some ["a", "b"], 1, 1⟩] ∧
    ¬(("," : String) ∈ (["a", "b"] : List String)) := by
  constructor
  · rfl
  · decide

/-- Claim C8 (amended): for every nonempty requested tag list whose tags —
and the stored tags of every entry — are nonempty strings of plain
characters (lower-case ASCII letters, digits, hyphens), `listKnowledge`
returns only entries whose tag set contains at least one requested tag
(union semantics). -/
theorem claim_C8 (st : SvcState) (ts : List String) (limit offset : Nat)
    (hts : ∀ t ∈ ts, plainTag t = true) (hne : ts ≠ [])
    (hrows : ∀ r ∈ st.db.entries, ∀ t ∈ r.tags.getD [], plainTag t = true) :
    ∀ e ∈ Svc.listKnowledge st limit offset (some ts),
      ∃ tl, e.tags = some tl ∧ ∃ t ∈ ts, t ∈ tl := by
  intro e he
  obtain ⟨t0, ts', rfl⟩ : ∃ t0 ts', ts = t0 :: ts' := by
    cases ts with
    | nil => exact absurd rfl hne
    | cons a b => exact ⟨a, b, rfl⟩
  simp only [Svc.listKnowledge, DB.listKnowledgeEntries] at he
  obtain ⟨r, hrmem, rfl⟩ := List.mem_map.mp he
  have hr4 : r ∈ sortDesc (fun r => r.created_at) _ :=
    List.drop_subset _ _ (List.mem_of_mem_take hrmem)
  have hr5 := mem_sortDesc.mp hr4
  obtain ⟨hrent, hcond⟩ := List.mem_filter.mp hr5
  obtain ⟨tg, htg, hmatch⟩ := List.any_eq_true.mp hcond
  cases hrtags : r.tags with
  | none => rw [hrtags] at hmatch; cases hmatch
  | some tl =>
    rw [hrtags] at hmatch
    have htlplain : ∀ t ∈ tl, plainTag t = true := by
      have := hrows r hrent
      rw [hrtags] at this
      simpa using this
    have htgplain := hts tg htg
    have htgchars : ∀ c ∈ tg.data, plainChar c = true := by
      simp only [plainTag, Bool.and_eq_true, List.all_eq_true] at htgplain
      exact fun c hc => htgplain.2 c hc
    have hshape : tagPat tg = '%' :: (('"' :: (tg.data ++ ['"'])) ++ ['%']) := by
      simp [tagPat]
    rw [hshape] at hmatch
    have hnw : noWildcard ('"' :: (tg.data ++ ['"'])) = true := by
      simp only [noWildcard, List.all_cons, List.all_append,
        Bool.and_eq_true, List.all_eq_true, decide_eq_true_eq]
      refine ⟨⟨by decide, by decide⟩, fun c hc =>
        ⟨plain_ne_percent (htgchars c hc),
         plain_ne_underscore (htgchars c hc)⟩, by decide⟩
    have hinf := (likeMatch_sandwich hnw _).mp hmatch
    rw [lstr_quoted_plain htgchars, lstr_serializeTags htlplain] at hinf
    obtain ⟨u, v, huv⟩ := hinf
    have huv' : serializeTags tl = u ++ '"' :: (tg.data ++ '"' :: v) := by
      rw [← huv]
      simp [List.append_assoc]
    have hxq : ∀ c ∈ tg.data, c ≠ '"' :=
      fun c hc => plain_ne_quote (htgchars c hc)
    have hmem := splitQ_infix_mem hxq u v
    rw [← huv'] at hmem
    obtain ⟨h, t, h1, h2⟩ := splitQ_cons_ne (by decide : ('[' : Char) ≠ '"')
      (serializeInner tl ++ [']'])
    rw [show serializeTags tl = '[' :: (serializeInner tl ++ [']']) from rfl,
      h2] at hmem
    simp only [List.tail_cons] at hmem
    have hmem2 : tg.data ∈ splitQ (serializeInner tl ++ [']']) := by
      rw [h1]
      exact List.mem_cons_of_mem _ hmem
    rcases splitQ_inner_mem tl htlplain _ hmem2 with he0 | ⟨t', ht', he'⟩ |
      he0 | he0
    · simp only [plainTag, Bool.and_eq_true] at htgplain
      rw [he0] at htgplain
      simp at htgplain
    · have htgt' : tg = t' := by
        cases tg
        cases t'
        simp only at he'
        rw [he']
      refine ⟨tl, by simp [DB.rowToEntry, hrtags], tg, htg, ?_⟩
      rw [htgt']
      exact ht'
    · have : (',' : Char) ∈ tg.data := by rw [he0]; simp
      exact absurd rfl (plain_ne_comma (htgchars _ this))
    · have : (']' : Char) ∈ tg.data := by rw [he0]; simp
      exact absurd rfl (plain_ne_rbracket (htgchars _ this))

theorem claim_C8_witness :
    ∃ tl, (⟨1, "T", "c", none, some ["x", "y"], 1, 1⟩ : KEntry).tags =
      some tl ∧ ∃ t ∈ (["y"] : List String), t ∈ tl :=
  claim_C8 (Svc.addKnowledge svcInit "T" "c" none (some ["x", "y"]) true 1).1
    ["y"] 20 0 (by decide) (by decide) (by decide)
    ⟨1, "T", "c", none, some ["x", "y"], 1, 1⟩ (by decide)

theorem splitWs_ne_nil (s : List Char) : splitWs s ≠ [] := by
  induction s with
  | nil => simp [splitWs]
  | cons c cs ih =>
    simp only [splitWs]
    by_cases hw : c.isWhitespace
    · cases cs with
      | nil => simp [hw]
      | cons d cs' =>
        by_cases hd : d.isWhitespace <;> simp [hw, hd, ih]
    · cases hr : splitWs cs with
      | nil => exact absurd hr ih
      | cons h t => simp [hw, hr]

theorem splitWs_chars :
    ∀ (s : List Char) (w : List Char), w ∈ splitWs s → ∀ c ∈ w, c ∈ s := by
  intro s
  induction s with
  | nil =>
    intro w hw c hc
    simp only [splitWs, List.mem_singleton] at hw
    subst hw
    cases hc
  | cons a cs ih =>
    intro w hw c hc
    simp only [splitWs] at hw
    by_cases ha : a.isWhitespace
    · rw [if_pos ha] at hw
      cases cs with
      | nil =>
        rcases List.mem_cons.mp hw with rfl | hw'
        · cases hc
        · exact List.mem_cons_of_mem _ (ih w hw' c hc)
      | cons d cs' =>
        by_cases hd : d.isWhitespace
        · simp only [hd, if_true] at hw
          exact List.mem_cons_of_mem _ (ih w hw c hc)
        · have hd' : d.isWhitespace = false := by simpa using hd
          simp only [hd', Bool.false_eq_true, if_false] at hw
          rcases List.mem_cons.mp hw with rfl | hw'
          · cases hc
          · exact List.mem_cons_of_mem _ (ih w hw' c hc)
    · rw [if_neg ha] at hw
      cases hr : splitWs cs with
      | nil => exact absurd hr (splitWs_ne_nil cs)
      | cons h t =>
        rw [hr] at hw
        simp only at hw
        rcases List.mem_cons.mp hw with rfl | hw'
        · rcases List.mem_cons.mp hc with rfl | hc'
          · simp
          · refine List.mem_cons_of_mem _ (ih h ?_ c hc')
            rw [hr]
            exact List.mem_cons_self _ _
        · refine List.mem_cons_of_mem _ (ih w ?_ c hc)
          rw [hr]
          exact List.mem_cons_of_mem _ hw'

theorem keptWords_lstr {q : String} : ∀ w ∈ keptWords q, lstr w = w := by
  intro w hw
  have hw' : w ∈ splitWs (lstr q.data) :=
    (List.mem_filter.mp hw).1
  have hchars : ∀ c ∈ w, c ∈ lstr q.data :=
    splitWs_chars (lstr q.data) w hw'
  have hfix : ∀ c ∈ w, lchar c = c := by
    intro c hc
    obtain ⟨c0, -, rfl⟩ := List.mem_map.mp (hchars c hc)
    exact lchar_idem c0
  have : List.map lchar w = List.map id w :=
    List.map_congr_left (fun c hc => hfix c hc)
  simpa [lstr] using this

theorem wordPat_eq (w : List Char) : wordPat w = '%' :: (w ++ ['%']) := by
  simp [wordPat]

theorem likeMatch_word {w s : List Char} (hnw : noWildcard w = true)
    (hfix : lstr w = w) :
    likeMatch (wordPat w) (lstr s) = decide (w <:+: lstr s) := by
  have h := likeMatch_sandwich hnw (lstr s)
  rw [lstr_idem, hfix] at h
  rw [wordPat_eq]
  by_cases hd : w <:+: lstr s
  · rw [h.mpr hd, decide_eq_true hd]
  · have hne : likeMatch ('%' :: (w ++ ['%'])) (lstr s) ≠ true :=
      fun hc => hd (h.mp hc)
    rw [Bool.eq_false_iff.mpr hne, decide_eq_false hd]

/-- Claim C9, counterexample: the kept word `a%z` is not a substring of
the title `abcz`, but `%` acts as a `LIKE` wildcard and the entry is
returned. -/
theorem claim_C9_counterexample :
    Svc.searchKnowledgeText (Svc.addKnowledge svcInit "abcz" "" none none
        true 1).1 "a%z" 10 =
      [⟨1, "abcz", "", none, none, 1, 1⟩] ∧
    ¬("a%z".data <:+: "abcz".data) := by
  constructor
  · rfl
  · decide

/-- Claim C9 (amended): `searchKnowledgeText` lower-cases the query,
splits it on whitespace, discards words shorter than 3 characters, and
returns the empty list when every word is discarded; when the kept words
contain no `LIKE` wildcard (`%`, `_`), an entry is kept exactly when some
word occurs case-insensitively as a substring of its title or content
(the result then being that filter, ordered by `updated_at` descending
and truncated to the limit). -/
theorem claim_C9 (st : SvcState) (q : String) (limit : Nat)
    (hw : ∀ w ∈ keptWords q, noWildcard w = true) :
    (keptWords q = [] → Svc.searchKnowledgeText st q limit = []) ∧
    Svc.searchKnowledgeText st q limit =
      ((sortDesc (fun r => r.updated_at)
        (st.db.entries.filter (fun r =>
          (keptWords q).any (fun w => specWordMatch w r)))).take limit).map
        DB.rowToEntry := by
  constructor
  · intro h
    simp [Svc.searchKnowledgeText, DB.searchKnowledgeByText, h]
  · by_cases hempty : (keptWords q).isEmpty
    · have h0 : keptWords q = [] := by
        simpa [List.isEmpty_iff] using hempty
      simp [Svc.searchKnowledgeText, DB.searchKnowledgeByText, h0, sortDesc]
    · have hempty' : (keptWords q).isEmpty = false := by
        simpa using hempty
      simp only [Svc.searchKnowledgeText, DB.searchKnowledgeByText, hempty',
        Bool.false_eq_true, if_false]
      have hfilter :
          st.db.entries.filter (fun r => (keptWords q).any (fun w =>
            likeMatch (wordPat w) (lstr r.title.data) ||
            likeMatch (wordPat w) (lstr r.content.data))) =
          st.db.entries.filter (fun r => (keptWords q).any (fun w =>
            specWordMatch w r)) := by
        refine List.filter_congr (fun r _ => any_congr (fun w hwmem => ?_))
        rw [specWordMatch, likeMatch_word (hw w hwmem) (keptWords_lstr w hwmem),
          likeMatch_word (hw w hwmem) (keptWords_lstr w hwmem)]
      rw [hfilter]

theorem claim_C9_witness :
    Svc.searchKnowledgeText (Svc.addKnowledge svcInit "Hello World" "x" none
        none true 1).1 "hello" 10 =
      ((sortDesc (fun r => r.updated_at)
        ((Svc.addKnowledge svcInit "Hello World" "x" none none
          true 1).1.db.entries.filter (fun r =>
          (keptWords "hello").any (fun w => specWordMatch w r)))).take 10).map
        DB.rowToEntry :=
  (claim_C9 (Svc.addKnowledge svcInit "Hello World" "x" none none true 1).1
    "hello" 10 (by decide)).2

/-- The relational part of `addKnowledge` is the `saveKnowledgeEntry`
write, whatever the vector path does. -/
theorem addKnowledge_db (st : SvcState) (title content : String)
    (source : Option String) (tags : Option (List String)) (embedOk : Bool)
    (now : Nat) :
    (Svc.addKnowledge st title content source tags embedOk now).1.db =
      (DB.saveKnowledgeEntry st.db title content source tags now).1 ∧
    (Svc.addKnowledge st title content source tags embedOk now).2.id =
      (DB.saveKnowledgeEntry st.db title content source tags now).2 := by
  cases hge : DB.getKnowledgeEntry
      (DB.saveKnowledgeEntry st.db title content source tags now).1
      (DB.saveKnowledgeEntry st.db title content source tags now).2 with
  | none => simp [Svc.addKnowledge, hge]
  | some e => simp [Svc.addKnowledge, hge]

/-- Claim C6, counterexample: an entry stored with the present-but-empty
source `""` reads back with no source at all (the `|| null` truthiness
coercion), so the add/get roundtrip is not the identity on `source`. -/
theorem claim_C6_counterexample :
    (Svc.getKnowledge (Svc.addKnowledge svcInit "A" "c" (some "") none
        true 1).1 1).map (fun e => e.source) = some none ∧
    (some (none : Option String)) ≠ some (some "") := by
  constructor
  · rfl
  · simp

/-- Claim C6 (amended): for every valid entry (non-empty title, any
content, optional tags, and a source that is absent or non-empty),
`getKnowledge (addKnowledge e).id` returns an entry equal to `e` in
title, content, source and tags (tags in their original order), with
`created_at = updated_at`. -/
theorem claim_C6 (st : SvcState) (title content : String)
    (source : Option String) (tags : Option (List String)) (embedOk : Bool)
    (now : Nat)
    (hfresh : ∀ r ∈ st.db.entries, r.id < st.db.nextEntryId)
    (htitle : title ≠ "") (hsrc : source ≠ some "") :
    Svc.getKnowledge (Svc.addKnowledge st title content source tags embedOk
        now).1
      (Svc.addKnowledge st title content source tags embedOk now).2.id =
    some ⟨st.db.nextEntryId, title, content, source, tags, now, now⟩ := by
  obtain ⟨hdb, hid⟩ := addKnowledge_db st title content source tags embedOk now
  rw [Svc.getKnowledge, hdb, hid]
  simp only [DB.saveKnowledgeEntry, DB.getKnowledgeEntry]
  rw [List.find?_append]
  have hnone : st.db.entries.find? (fun r =>
      decide (r.id = st.db.nextEntryId)) = none :=
    List.find?_eq_none.mpr (fun r hr => by
      have := hfresh r hr
      simp only [decide_eq_true_eq]
      omega)
  rw [hnone]
  simp only [Option.none_or]
  cases source with
  | none => simp [DB.rowToEntry]
  | some s =>
    have hs : s ≠ "" := fun h => hsrc (by rw [h])
    simp [DB.rowToEntry, hs]

theorem claim_C6_witness :
    Svc.getKnowledge (Svc.addKnowledge svcInit "A" "c" (some "src")
        (some ["x", "y"]) true 7).1
      (Svc.addKnowledge svcInit "A" "c" (some "src") (some ["x", "y"]) true
        7).2.id =
    some ⟨1, "A", "c", some "src", some ["x", "y"], 7, 7⟩ :=
  claim_C6 svcInit "A" "c" (some "src") (some ["x", "y"]) true 7
    (by simp [svcInit, dbInit]) (by decide) (by decide)

theorem claim_C2_witness :
    ((⟨exStart1.db.nextSessionId,
        (match (some "S2" : Option String) with
         | some n => if n = "" then none else some n
         | none => none), 2, none, none, true⟩ : SessionRow) ∈
      (Svc.startLoggingSession exStart1 (some "S2") 2).1.db.sessions) ∧
    countActive (Svc.startLoggingSession exStart1 (some "S2") 2).1.db ≤ 1 ∧
    ((⟨1, some "S1", 1, some 2, some Svc.autoCloseMarker, false⟩ :
        SessionRow).is_active = false ∧
      (⟨1, some "S1", 1, some 2, some Svc.autoCloseMarker, false⟩ :
        SessionRow).summary = some Svc.autoCloseMarker) :=
  ⟨(claim_C2 exStart1 (some "S2") 2
      (SvcReach.step (.start (some "S1") 1) SvcReach.init)).2.1,
   (claim_C2 exStart1 (some "S2") 2
      (SvcReach.step (.start (some "S1") 1) SvcReach.init)).2.2.2.2,
   (claim_C2 exStart1 (some "S2") 2
      (SvcReach.step (.start (some "S1") 1) SvcReach.init)).1
     ⟨1, some "S1", 1, none, none, true⟩ (by decide)
     ⟨1, some "S1", 1, some 2, some Svc.autoCloseMarker, false⟩
     (by decide) rfl⟩

end PK
